import Mathlib

/-!
Verification of the Echoflare ground-station toolkit core (AX.25 / G3RUH
modem, telemetry/telecommand codec, Robot36 decoder tail) against its
natural-language specification.

The Python sources are shallowly embedded: bytes become `List Nat` (each
element a byte value), bit streams become `List Nat` (each element 0 or 1),
Python integers become `Nat`/`Int` with explicit masking where the source
masks, and fallible code returns `Option`/`Except`.
-/

set_option maxRecDepth 20000

namespace Echoflare

/-! ## Bit utilities (src/modem_g3ruh.py) -/

/-- Embedding of `bytes_to_bits_lsb_first`: byte `b` yields bits
`(b>>0)&1, …, (b>>7)&1`. -/
def bytes_to_bits_lsb_first (data : List Nat) : List Nat :=
  data.flatMap (fun b => (List.range 8).map (fun i => (b >>> i) &&& 1))

/-- Accumulator loop of `bits_to_bytes_lsb_first`: `acc` collects bits
LSB-first, a byte is emitted every 8 bits, trailing partial bits are
dropped. -/
def bits_to_bytes_aux : Nat → Nat → List Nat → List Nat
  | _, _, [] => []
  | acc, n, bit :: rest =>
    let acc2 := acc ||| ((bit &&& 1) <<< n)
    if n + 1 = 8 then acc2 :: bits_to_bytes_aux 0 0 rest
    else bits_to_bytes_aux acc2 (n + 1) rest

/-- Embedding of `bits_to_bytes_lsb_first`. -/
def bits_to_bytes_lsb_first (bits : List Nat) : List Nat :=
  bits_to_bytes_aux 0 0 bits

/-- Loop of `bitstuff` with the running count of consecutive ones: after
five consecutive 1 data-bits a 0 is inserted and the counter resets; the
counter also resets on a literal data 0. -/
def bitstuffAux : Nat → List Nat → List Nat
  | _, [] => []
  | ones, b :: rest =>
    let bit := b &&& 1
    if bit = 1 then
      if ones + 1 = 5 then bit :: 0 :: bitstuffAux 0 rest
      else bit :: bitstuffAux (ones + 1) rest
    else bit :: bitstuffAux 0 rest

/-- Embedding of `bitstuff`. -/
def bitstuff (bits : List Nat) : List Nat := bitstuffAux 0 bits

/-- Loop of `bitunstuff`: after five consecutive ones, a following 0 is
discarded (it was stuffed) and the counter resets.  The final element needs
no lookahead, so it is its own case. -/
def bitunstuffAux : Nat → List Nat → List Nat
  | _, [] => []
  | _, [b] => [b]
  | ones, b :: c :: rest =>
    if b = 1 then
      if ones + 1 = 5 then
        if c = 0 then b :: bitunstuffAux 0 rest
        else b :: bitunstuffAux 0 (c :: rest)
      else b :: bitunstuffAux (ones + 1) (c :: rest)
    else b :: bitunstuffAux 0 (c :: rest)

/-- Embedding of `bitunstuff`. -/
def bitunstuff (bits : List Nat) : List Nat := bitunstuffAux 0 bits

/-- Tail loop of `nrzi_decode`: emit 1 when the level repeats, 0 when it
changes. -/
def nrzi_decodeAux : Nat → List Nat → List Nat
  | _, [] => []
  | prev, lvl :: rest =>
    (if lvl = prev then 1 else 0) :: nrzi_decodeAux lvl rest

/-- Embedding of `nrzi_decode` (output is one shorter than the input). -/
def nrzi_decode : List Nat → List Nat
  | [] => []
  | prev :: rest => nrzi_decodeAux prev rest

/-- Loop of `nrzi_encode`: a 0 bit toggles the line level, a 1 keeps it. -/
def nrzi_encodeAux : Nat → List Nat → List Nat
  | _, [] => []
  | level, b :: rest =>
    let l2 := if b &&& 1 = 0 then level ^^^ 1 else level
    l2 :: nrzi_encodeAux l2 rest

/-- Embedding of `nrzi_encode` (output starts with the initial level, one
longer than the input). -/
def nrzi_encode (bits : List Nat) (initial_level : Nat) : List Nat :=
  let level := initial_level &&& 1
  level :: nrzi_encodeAux level bits

/-- One shift-and-conditional-xor round of `crc16_x25`. -/
def crc16_round (crc : Nat) : Nat :=
  if crc &&& 1 = 1 then (crc >>> 1) ^^^ 0x8408 else crc >>> 1

/-- Per-byte step of `crc16_x25`: xor the byte in, then 8 rounds. -/
def crc16_byte_step (crc b : Nat) : Nat :=
  crc16_round (crc16_round (crc16_round (crc16_round
    (crc16_round (crc16_round (crc16_round (crc16_round (crc ^^^ b))))))))

/-- Embedding of `crc16_x25` (init 0xFFFF, reversed poly 0x8408, xorout
0xFFFF).  Python's final `(~crc) & 0xFFFF` on a non-negative `crc` equals
`(crc % 2^16) ^^^ 0xFFFF`. -/
def crc16_x25 (data : List Nat) : Nat :=
  ((data.foldl crc16_byte_step 0xFFFF) % 65536) ^^^ 0xFFFF

/-! ## G3RUH scrambler (src/modem_g3ruh.py) -/

/-- Loop of `g3ruh_descramble` carrying the 17-bit LFSR: taps at 11 and 16;
variant 0 shifts the input bit in, variant 1 shifts the output bit in. -/
def g3ruh_descramble_aux (variant : Nat) : Nat → List Nat → List Nat
  | _, [] => []
  | lfsr, b :: rest =>
    let tap := ((lfsr >>> 16) ^^^ (lfsr >>> 11)) &&& 1
    let out := (b &&& 1) ^^^ tap
    let shiftIn := if variant = 0 then b &&& 1 else out
    out :: g3ruh_descramble_aux variant (((lfsr <<< 1) ||| shiftIn) &&& 0x1FFFF) rest

/-- Embedding of `g3ruh_descramble`: LFSR starts at 0. -/
def g3ruh_descramble (bits : List Nat) (variant : Nat) : List Nat :=
  g3ruh_descramble_aux variant 0 bits

/-- Embedding of `g3ruh_scramble`: the source calls the descramble routine. -/
def g3ruh_scramble (bits : List Nat) (variant : Nat) : List Nat :=
  g3ruh_descramble bits variant

theorem xor_le_one {a b : Nat} (ha : a ≤ 1) (hb : b ≤ 1) : a ^^^ b ≤ 1 := by
  interval_cases a <;> interval_cases b <;> decide

theorem and_one_of_le_one {a : Nat} (ha : a ≤ 1) : a &&& 1 = a := by
  interval_cases a <;> decide

theorem tap_le_one (lfsr : Nat) : ((lfsr >>> 16) ^^^ (lfsr >>> 11)) &&& 1 ≤ 1 := by
  rw [Nat.and_one_is_mod]
  omega

/-- Variant-1 descrambling undoes variant-0 scrambling from any common LFSR
state: both LFSRs are fed the plaintext bits, so their taps agree. -/
theorem g3ruh_aux_inv_0_1 (l : List Nat) :
    ∀ lfsr, (∀ b ∈ l, b ≤ 1) →
      g3ruh_descramble_aux 1 lfsr (g3ruh_descramble_aux 0 lfsr l) = l := by
  induction l with
  | nil => intro lfsr _; rfl
  | cons b rest ih =>
    intro lfsr hle
    have hb : b ≤ 1 := hle b (by simp)
    have hrest : ∀ x ∈ rest, x ≤ 1 := fun x hx => hle x (by simp [hx])
    have htap : ((lfsr >>> 16) ^^^ (lfsr >>> 11)) &&& 1 ≤ 1 := tap_le_one lfsr
    have hout : b ^^^ (((lfsr >>> 16) ^^^ (lfsr >>> 11)) &&& 1) ≤ 1 :=
      xor_le_one hb htap
    simp only [g3ruh_descramble_aux, reduceIte, and_one_of_le_one hb,
      and_one_of_le_one hout, Nat.xor_assoc, Nat.xor_self, Nat.xor_zero]
    exact congrArg (b :: ·) (ih _ hrest)

/-- Variant-0 descrambling undoes variant-1 scrambling from any common LFSR
state: both LFSRs are fed the scrambled bits, so their taps agree. -/
theorem g3ruh_aux_inv_1_0 (l : List Nat) :
    ∀ lfsr, (∀ b ∈ l, b ≤ 1) →
      g3ruh_descramble_aux 0 lfsr (g3ruh_descramble_aux 1 lfsr l) = l := by
  induction l with
  | nil => intro lfsr _; rfl
  | cons b rest ih =>
    intro lfsr hle
    have hb : b ≤ 1 := hle b (by simp)
    have hrest : ∀ x ∈ rest, x ≤ 1 := fun x hx => hle x (by simp [hx])
    have htap : ((lfsr >>> 16) ^^^ (lfsr >>> 11)) &&& 1 ≤ 1 := tap_le_one lfsr
    have hout : b ^^^ (((lfsr >>> 16) ^^^ (lfsr >>> 11)) &&& 1) ≤ 1 :=
      xor_le_one hb htap
    simp only [g3ruh_descramble_aux, reduceIte, and_one_of_le_one hb,
      and_one_of_le_one hout, Nat.xor_assoc, Nat.xor_self, Nat.xor_zero]
    exact congrArg (b :: ·) (ih _ hrest)

/-- Bit list showing that same-variant scramble/descramble is not
self-inverse: a single 1 followed by 24 zeros. -/
def c1Input : List Nat := 1 :: List.replicate 24 0

/-- Claim C1 (counterexample): for both variants, descrambling with the
*same* variant does not invert scrambling, even after the 17-bit transient:
on the bitstream 1,0,…,0 (25 bits, both LFSRs starting from 0) the double
application differs from the input at bit index 24. -/
theorem g3ruh_same_variant_not_self_inverse :
    g3ruh_descramble (g3ruh_scramble c1Input 0) 0 ≠ c1Input ∧
    g3ruh_descramble (g3ruh_scramble c1Input 1) 1 ≠ c1Input ∧
    (g3ruh_descramble (g3ruh_scramble c1Input 0) 0).drop 17 ≠ c1Input.drop 17 ∧
    (g3ruh_descramble (g3ruh_scramble c1Input 1) 1).drop 17 ≠ c1Input.drop 17 := by
  refine ⟨?_, ?_, ?_, ?_⟩ <;> decide

/-- Claim C1 (amended): the G3RUH transform is inverted by the *opposite*
shift-in convention.  With both LFSRs starting from 0, descrambling with
variant 1 inverts scrambling with variant 0 and vice versa, exactly (no
transient is needed), for every 0/1 bitstream. -/
theorem g3ruh_opposite_variant_inverse (B : List Nat) (hB : ∀ b ∈ B, b ≤ 1) :
    g3ruh_descramble (g3ruh_scramble B 0) 1 = B ∧
    g3ruh_descramble (g3ruh_scramble B 1) 0 = B :=
  ⟨g3ruh_aux_inv_0_1 B 0 hB, g3ruh_aux_inv_1_0 B 0 hB⟩

/-- Witness for the amended claim C1 at the concrete 25-bit input. -/
theorem g3ruh_opposite_variant_inverse_witness :
    g3ruh_descramble (g3ruh_scramble c1Input 0) 1 = c1Input ∧
    g3ruh_descramble (g3ruh_scramble c1Input 1) 0 = c1Input :=
  g3ruh_opposite_variant_inverse c1Input (by decide)

/-! ## Bit stuffing properties (claim C8) -/

theorem bytes_to_bits_le_one (S : List Nat) : ∀ b ∈ bytes_to_bits_lsb_first S, b ≤ 1 := by
  intro b hb
  simp only [bytes_to_bits_lsb_first, List.mem_flatMap, List.mem_map,
    List.mem_range] at hb
  obtain ⟨x, _, i, _, rfl⟩ := hb
  rw [Nat.and_one_is_mod]
  omega

theorem bitstuffAux_ne_nil (k c : Nat) (r : List Nat) : bitstuffAux k (c :: r) ≠ [] := by
  have h := Nat.and_one_is_mod c
  by_cases h1 : c % 2 = 1 <;> by_cases h2 : k + 1 = 5 <;>
    simp [bitstuffAux, h, h1, h2]

/-- Unstuffing inverts stuffing when started from matching run counters. -/
theorem unstuff_stuff_aux (l : List Nat) :
    (∀ b ∈ l, b ≤ 1) → ∀ k, k ≤ 4 → bitunstuffAux k (bitstuffAux k l) = l := by
  induction l with
  | nil => intro _ k _; rfl
  | cons b rest ih =>
    intro hle k hk
    have hb : b ≤ 1 := hle b (by simp)
    have hrest : ∀ x ∈ rest, x ≤ 1 := fun x hx => hle x (List.mem_cons_of_mem _ hx)
    rcases Nat.le_one_iff_eq_zero_or_eq_one.mp hb with rfl | rfl
    · cases rest with
      | nil => rfl
      | cons c rest2 =>
        have hstuff : bitstuffAux k (0 :: c :: rest2) =
            0 :: bitstuffAux 0 (c :: rest2) := by
          simp [bitstuffAux]
        obtain ⟨x, t, hxt⟩ := List.exists_cons_of_ne_nil (bitstuffAux_ne_nil 0 c rest2)
        rw [hstuff, hxt]
        have hun : bitunstuffAux k (0 :: x :: t) = 0 :: bitunstuffAux 0 (x :: t) := by
          simp [bitunstuffAux]
        rw [hun, ← hxt, ih hrest 0 (by omega)]
    · by_cases h5 : k + 1 = 5
      · have hstuff : bitstuffAux k (1 :: rest) = 1 :: 0 :: bitstuffAux 0 rest := by
          simp [bitstuffAux, h5]
        rw [hstuff]
        have hun : bitunstuffAux k (1 :: 0 :: bitstuffAux 0 rest) =
            1 :: bitunstuffAux 0 (bitstuffAux 0 rest) := by
          simp [bitunstuffAux, h5]
        rw [hun, ih hrest 0 (by omega)]
      · have hstuff : bitstuffAux k (1 :: rest) = 1 :: bitstuffAux (k + 1) rest := by
          simp [bitstuffAux, h5]
        rw [hstuff]
        cases rest with
        | nil => rfl
        | cons c rest2 =>
          obtain ⟨x, t, hxt⟩ :=
            List.exists_cons_of_ne_nil (bitstuffAux_ne_nil (k + 1) c rest2)
          rw [hxt]
          have hun : bitunstuffAux k (1 :: x :: t) =
              1 :: bitunstuffAux (k + 1) (x :: t) := by
            simp [bitunstuffAux, h5]
          rw [hun, ← hxt, ih hrest (k + 1) (by omega)]

/-- Run-length monitor: `true` iff the list contains a run of at least `k`
consecutive 1s, continuing a current run of length `c`. -/
def hasOnesRun (k : Nat) : Nat → List Nat → Bool
  | _, [] => false
  | c, b :: rest =>
    if b = 1 then decide (k ≤ c + 1) || hasOnesRun k (c + 1) rest
    else hasOnesRun k 0 rest

/-- The stuffed stream never reaches a run of six ones. -/
theorem stuff_no_six_run (l : List Nat) :
    ∀ k, k ≤ 4 → hasOnesRun 6 k (bitstuffAux k l) = false := by
  induction l with
  | nil => intro k _; rfl
  | cons b rest ih =>
    intro k hk
    by_cases hb1 : b &&& 1 = 1
    · by_cases h5 : k + 1 = 5
      · have hstuff : bitstuffAux k (b :: rest) = 1 :: 0 :: bitstuffAux 0 rest := by
          simp [bitstuffAux, hb1, h5]
        rw [hstuff]
        have h6 : ¬ (6 ≤ k + 1) := by omega
        simp [hasOnesRun, h6, ih 0 (by omega)]
      · have hstuff : bitstuffAux k (b :: rest) = 1 :: bitstuffAux (k + 1) rest := by
          simp [bitstuffAux, hb1, h5]
        rw [hstuff]
        have h6 : ¬ (6 ≤ k + 1) := by omega
        simp [hasOnesRun, h6, ih (k + 1) (by omega)]
    · have hb0 : b &&& 1 = 0 := by
        rw [Nat.and_one_is_mod] at hb1 ⊢
        omega
      have hstuff : bitstuffAux k (b :: rest) = 0 :: bitstuffAux 0 rest := by
        simp [bitstuffAux, hb0]
      rw [hstuff]
      simp [hasOnesRun, ih 0 (by omega)]

/-- A list starting with `m ≥ 1` ones forces the monitor to fire unless the
run stays below the threshold. -/
theorem run_prefix_bound (k : Nat) :
    ∀ (m : Nat) (l : List Nat) (c : Nat), 1 ≤ m →
      l.take m = List.replicate m 1 → hasOnesRun k c l = false → m + c < k := by
  intro m
  induction m with
  | zero => intro l c h; omega
  | succ m ihm =>
    intro l c _ htake hscan
    cases l with
    | nil => simp [List.replicate_succ] at htake
    | cons b rest =>
      rw [List.replicate_succ] at htake
      simp only [List.take_succ_cons, List.cons.injEq] at htake
      obtain ⟨rfl, htake2⟩ := htake
      simp only [hasOnesRun, reduceIte, Bool.or_eq_false_iff,
        decide_eq_false_iff_not] at hscan
      obtain ⟨hlt, hscan2⟩ := hscan
      cases Nat.eq_zero_or_pos m with
      | inl hm0 => omega
      | inr hm1 =>
        have := ihm rest (c + 1) hm1 htake2 hscan2
        omega

/-- The monitor's failure is preserved on suffixes (with some counter). -/
theorem scan_suffix (k : Nat) :
    ∀ (l : List Nat) (c : Nat), hasOnesRun k c l = false →
      ∀ i, ∃ c2, hasOnesRun k c2 (l.drop i) = false := by
  intro l
  induction l with
  | nil => intro c _ i; exact ⟨0, by simp [hasOnesRun]⟩
  | cons b rest ih =>
    intro c hscan i
    cases i with
    | zero => exact ⟨c, hscan⟩
    | succ j =>
      simp only [List.drop_succ_cons]
      by_cases hb : b = 1
      · simp only [hasOnesRun, if_pos hb, Bool.or_eq_false_iff] at hscan
        exact ih (c + 1) hscan.2 j
      · simp only [hasOnesRun, if_neg hb] at hscan
        exact ih 0 hscan j

/-- Claim C8: for byte sequences whose LSB-first bits have no run of five
ones, unstuffing inverts stuffing; and for every input, the stuffed output
contains no window of six consecutive ones. -/
theorem bitstuff_roundtrip_and_no_six_ones :
    (∀ S : List Nat,
      (∀ i < (bytes_to_bits_lsb_first S).length,
        ((bytes_to_bits_lsb_first S).drop i).take 5 ≠ List.replicate 5 1) →
      bitunstuff (bitstuff (bytes_to_bits_lsb_first S)) = bytes_to_bits_lsb_first S) ∧
    (∀ (l : List Nat) (i : Nat), ((bitstuff l).drop i).take 6 ≠ List.replicate 6 1) := by
  constructor
  · intro S _
    exact unstuff_stuff_aux (bytes_to_bits_lsb_first S) (bytes_to_bits_le_one S)
      0 (by omega)
  · intro l i hEq
    have hscan : hasOnesRun 6 0 (bitstuff l) = false :=
      stuff_no_six_run l 0 (by omega)
    obtain ⟨c2, hc2⟩ := scan_suffix 6 (bitstuff l) 0 hscan i
    have := run_prefix_bound 6 6 ((bitstuff l).drop i) c2 (by omega) hEq hc2
    omega

/-- Witness for claim C8 at concrete inputs. -/
theorem bitstuff_roundtrip_and_no_six_ones_witness :
    bitunstuff (bitstuff (bytes_to_bits_lsb_first [0x55])) =
      bytes_to_bits_lsb_first [0x55] ∧
    ((bitstuff (List.replicate 12 1)).drop 0).take 6 ≠ List.replicate 6 1 :=
  ⟨bitstuff_roundtrip_and_no_six_ones.1 [0x55] (by decide),
   bitstuff_roundtrip_and_no_six_ones.2 (List.replicate 12 1) 0⟩

/-! ## AX.25 addresses and frames (src/ax25.py)

Callsigns are modelled as lists of character codes.  Python string
operations used by the source are modelled on those codes: `str.upper`
maps a–z to A–Z (the source only ever holds ASCII callsigns and the
claims restrict to ASCII), `str.ljust(6)` pads with spaces, and
`bytes.decode("ascii")` fails on codes ≥ 128. -/

/-- ASCII model of Python `str.upper` on one character code. -/
def pyUpperByte (c : Nat) : Nat := if 97 ≤ c ∧ c ≤ 122 then c - 32 else c

/-- Model of `str.ljust(6)`: right-pad with spaces (code 32) to length 6. -/
def ljust6 (l : List Nat) : List Nat := l ++ List.replicate (6 - l.length) 32

/-- Model of `str.rstrip(" ")`: drop trailing spaces. -/
def rstripSpaces (l : List Nat) : List Nat :=
  (l.reverse.dropWhile (fun c => c = 32)).reverse

/-- Embedding of the `AX25Address` dataclass. -/
structure AX25Address where
  callsign : List Nat
  ssid : Nat
deriving DecidableEq

/-- Embedding of `AX25Address.encode`: upper-case, check the length and
SSID bounds, space-pad to 6, shift each (7-bit-masked) character left by
one, and append the SSID byte `0x60 | (ssid<<1) | last`.  `none` models the
`ValueError`s, including the `encode("ascii")` failure on non-ASCII. -/
def AX25Address.encode (a : AX25Address) (last : Bool) : Option (List Nat) :=
  let callsign := a.callsign.map pyUpperByte
  if 6 < callsign.length then none
  else if 15 < a.ssid then none
  else if callsign.any (fun c => 128 ≤ c) then none
  else
    let call_bytes := ljust6 callsign
    let shifted := call_bytes.map (fun b => (b &&& 0x7F) <<< 1)
    some (shifted ++ [0x60 ||| ((a.ssid &&& 0x0F) <<< 1) |||
      (if last then 1 else 0)])

/-- Embedding of `AX25Address.decode`: require 7 bytes, shift each of the
first six right by one under a 7-bit mask (so the ASCII decode can never
fail, but the source's decode call is still modelled), strip trailing
spaces, read the SSID from bits 1–4 of the last byte. -/
def AX25Address.decode (addr7 : List Nat) : Option AX25Address :=
  if addr7.length ≠ 7 then none
  else
    let call := (addr7.take 6).map (fun b => (b >>> 1) &&& 0x7F)
    if call.any (fun c => 128 ≤ c) then none
    else some ⟨rstripSpaces call, (addr7.getD 6 0 >>> 1) &&& 0x0F⟩

/-- Embedding of `AX25Address.is_last`: low bit of the 7th byte. -/
def AX25Address.is_last (addr7 : List Nat) : Option Bool :=
  if addr7.length ≠ 7 then none
  else some (addr7.getD 6 0 &&& 1 = 1)

/-- Embedding of the `AX25Frame` dataclass. -/
structure AX25Frame where
  destination : AX25Address
  source : AX25Address
  control : Nat
  pid : Nat
  payload : List Nat
deriving DecidableEq

/-- Embedding of `AX25Frame.encode`: destination (last=false), source
(last=true), control and PID bytes, then the payload.  `bytes([control,
pid])` fails on values ≥ 256, modelled by `none`. -/
def AX25Frame.encode (f : AX25Frame) : Option (List Nat) :=
  match f.destination.encode false, f.source.encode true with
  | some d, some s =>
    if f.control < 256 ∧ f.pid < 256 then
      some (d ++ s ++ [f.control, f.pid] ++ f.payload)
    else none
  | _, _ => none

/-- Embedding of `AX25Frame.decode`: require at least 16 bytes, reject a
source address without the last-bit, then read the two addresses, control,
PID and payload. -/
def AX25Frame.decode (raw : List Nat) : Option AX25Frame :=
  if raw.length < 7 + 7 + 2 then none
  else
    let dst7 := raw.take 7
    let src7 := (raw.drop 7).take 7
    match AX25Address.is_last src7 with
    | none => none
    | some false => none
    | some true =>
      match AX25Address.decode dst7, AX25Address.decode src7 with
      | some d, some s =>
        some ⟨d, s, raw.getD 14 0, raw.getD 15 0, raw.drop 16⟩
      | _, _ => none

theorem pyUpper_fixed {c : Nat} (h : c < 97 ∨ 122 < c) : pyUpperByte c = c := by
  simp only [pyUpperByte]
  rw [if_neg]
  omega

theorem char_shift_roundtrip : ∀ b < 128, ((((b &&& 127) <<< 1) >>> 1) &&& 127) = b := by
  decide

theorem ssb_roundtrip : ∀ s < 16,
    ((0x60 ||| ((s &&& 0x0F) <<< 1) ||| 1) >>> 1) &&& 0x0F = s ∧
    ((0x60 ||| ((s &&& 0x0F) <<< 1) ||| 0) >>> 1) &&& 0x0F = s ∧
    (0x60 ||| ((s &&& 0x0F) <<< 1) ||| 1) &&& 1 = 1 ∧
    (0x60 ||| ((s &&& 0x0F) <<< 1) ||| 0) &&& 1 = 0 := by
  decide

theorem dropWhile_replicate_space (k : Nat) (x : List Nat) :
    List.dropWhile (fun c => c = 32) (List.replicate k 32 ++ x) =
      List.dropWhile (fun c => c = 32) x := by
  induction k with
  | zero => rfl
  | succ n ih => simp [List.replicate_succ, List.dropWhile_cons, ih]

theorem rstrip_ljust6 (cs : List Nat) (hne : cs ≠ [])
    (hns : ∀ c ∈ cs, c ≠ 32) : rstripSpaces (ljust6 cs) = cs := by
  simp only [rstripSpaces, ljust6]
  rw [List.reverse_append, List.reverse_replicate, dropWhile_replicate_space]
  cases hrev : cs.reverse with
  | nil =>
    exact absurd (by simpa using congrArg List.reverse hrev) hne
  | cons h t =>
    have hh : h ∈ cs := List.mem_reverse.mp (hrev ▸ List.mem_cons_self h t)
    rw [List.dropWhile_cons, if_neg (by simp [hns h hh]), ← hrev,
      List.reverse_reverse]

/-- Encoding then decoding a valid AX.25 address is the identity; the
encoded address is 7 bytes and its last-bit is as requested. -/
theorem addr_encode_decode (a : AX25Address) (last : Bool)
    (hcs : ∀ c ∈ a.callsign, 32 < c ∧ c < 128 ∧ (c < 97 ∨ 122 < c))
    (hne : a.callsign ≠ []) (hlen : a.callsign.length ≤ 6)
    (hssid : a.ssid ≤ 15) :
    ∃ e, a.encode last = some e ∧ e.length = 7 ∧
      AX25Address.decode e = some a ∧
      e.getD 6 0 &&& 1 = (if last then 1 else 0) := by
  obtain ⟨cs, ssid⟩ := a
  simp only at hcs hne hlen hssid
  have hupper : cs.map pyUpperByte = cs := by
    conv_rhs => rw [← List.map_id cs]
    exact List.map_congr_left (fun c hc => pyUpper_fixed (hcs c hc).2.2)
  have hlj : ∀ b ∈ ljust6 cs, b < 128 := by
    intro b hb
    simp only [ljust6, List.mem_append, List.mem_replicate] at hb
    rcases hb with hb | hb
    · have := (hcs b hb).2.1; omega
    · omega
  have hljlen : (ljust6 cs).length = 6 := by
    simp only [ljust6, List.length_append, List.length_replicate]
    omega
  have hshlen : ((ljust6 cs).map (fun b => (b &&& 0x7F) <<< 1)).length = 6 := by
    simpa using hljlen
  have hgd : (((ljust6 cs).map (fun b => (b &&& 0x7F) <<< 1)) ++
      [0x60 ||| ((ssid &&& 0x0F) <<< 1) ||| (if last then 1 else 0)]).getD 6 0 =
      0x60 ||| ((ssid &&& 0x0F) <<< 1) ||| (if last then 1 else 0) := by
    rw [List.getD_eq_getElem?_getD, ← hshlen, List.getElem?_concat_length]
    rfl
  have hs := ssb_roundtrip ssid (by omega)
  refine ⟨((ljust6 cs).map (fun b => (b &&& 0x7F) <<< 1)) ++
      [0x60 ||| ((ssid &&& 0x0F) <<< 1) ||| (if last then 1 else 0)], ?_, ?_, ?_, ?_⟩
  · simp only [AX25Address.encode, hupper]
    rw [if_neg (by omega), if_neg (by omega), if_neg ?_]
    · intro hcontra
      rw [List.any_eq_true] at hcontra
      obtain ⟨c, hc, hc128⟩ := hcontra
      rw [decide_eq_true_eq] at hc128
      have := (hcs c hc).2.1
      omega
  · simp only [List.length_append, hshlen, List.length_cons, List.length_nil]
  · simp only [AX25Address.decode]
    rw [if_neg (by simp [hshlen])]
    rw [List.take_left' hshlen, List.map_map]
    have hcall : (ljust6 cs).map ((fun b => (b >>> 1) &&& 0x7F) ∘
        (fun b => (b &&& 0x7F) <<< 1)) = ljust6 cs := by
      conv_rhs => rw [← List.map_id (ljust6 cs)]
      exact List.map_congr_left (fun b hb => char_shift_roundtrip b (hlj b hb))
    rw [hcall]
    rw [if_neg ?_]
    swap
    · intro hcontra
      rw [List.any_eq_true] at hcontra
      obtain ⟨c, hc, hc128⟩ := hcontra
      rw [decide_eq_true_eq] at hc128
      have := hlj c hc
      omega
    · rw [hgd, rstrip_ljust6 cs hne (fun c hc => by have := (hcs c hc).1; omega)]
      cases last
      · rw [show (if (false : Bool) then (1:Nat) else 0) = 0 from rfl, hs.2.1]
      · rw [show (if (true : Bool) then (1:Nat) else 0) = 1 from rfl, hs.1]
  · rw [hgd]
    cases last
    · rw [show (if (false : Bool) then (1:Nat) else 0) = 0 from rfl]
      exact hs.2.2.2
    · rw [show (if (true : Bool) then (1:Nat) else 0) = 1 from rfl]
      exact hs.2.2.1

theorem getD_append_at (l1 l2 : List Nat) (n : Nat) (h : l1.length ≤ n) :
    (l1 ++ l2).getD n 0 = l2.getD (n - l1.length) 0 := by
  rw [List.getD_eq_getElem?_getD, List.getD_eq_getElem?_getD,
    List.getElem?_append_right h]

/-- Claim C4: encode/decode of a 2-address AX.25 UI frame is the identity
for frames with 1–6 character uppercase-ASCII callsigns, SSIDs in [0,15],
and byte-valued control/PID (Python's `bytes` type guarantees the latter). -/
theorem ax25_encode_decode_roundtrip (f : AX25Frame)
    (hdcs : ∀ c ∈ f.destination.callsign, 32 < c ∧ c < 128 ∧ (c < 97 ∨ 122 < c))
    (hdne : f.destination.callsign ≠ [])
    (hdlen : f.destination.callsign.length ≤ 6)
    (hdssid : f.destination.ssid ≤ 15)
    (hscs : ∀ c ∈ f.source.callsign, 32 < c ∧ c < 128 ∧ (c < 97 ∨ 122 < c))
    (hsne : f.source.callsign ≠ [])
    (hslen : f.source.callsign.length ≤ 6)
    (hsssid : f.source.ssid ≤ 15)
    (hctrl : f.control < 256) (hpid : f.pid < 256) :
    f.encode.bind AX25Frame.decode = some f := by
  obtain ⟨dst, src, control, pid, payload⟩ := f
  simp only at hdcs hdne hdlen hdssid hscs hsne hslen hsssid hctrl hpid
  obtain ⟨ed, hed, hedlen, heddec, hedlast⟩ :=
    addr_encode_decode dst false hdcs hdne hdlen hdssid
  obtain ⟨es, hes, heslen, hesdec, heslast⟩ :=
    addr_encode_decode src true hscs hsne hslen hsssid
  have heslast1 : es.getD 6 0 &&& 1 = 1 := heslast
  simp only [AX25Frame.encode, hed, hes]
  rw [if_pos ⟨hctrl, hpid⟩, Option.some_bind]
  have hlen16 : ¬ ((ed ++ (es ++ ([control, pid] ++ payload))).length < 7 + 7 + 2) := by
    simp only [List.length_append, hedlen, heslen, List.length_cons]
    omega
  have htake : (ed ++ (es ++ ([control, pid] ++ payload))).take 7 = ed :=
    List.take_left' hedlen
  have hdrop : (ed ++ (es ++ ([control, pid] ++ payload))).drop 7 =
      es ++ ([control, pid] ++ payload) := List.drop_left' hedlen
  have htake2 : (es ++ ([control, pid] ++ payload)).take 7 = es :=
    List.take_left' heslen
  have hislast : AX25Address.is_last es = some true := by
    simp only [AX25Address.is_last]
    rw [if_neg (by simp [heslen]), heslast1]
    simp
  have h14 : (ed ++ (es ++ ([control, pid] ++ payload))).getD 14 0 = control := by
    rw [getD_append_at _ _ 14 (by omega), getD_append_at _ _ _ (by omega)]
    have he : 14 - ed.length - es.length = 0 := by omega
    rw [he]
    rfl
  have h15 : (ed ++ (es ++ ([control, pid] ++ payload))).getD 15 0 = pid := by
    rw [getD_append_at _ _ 15 (by omega), getD_append_at _ _ _ (by omega)]
    have he : 15 - ed.length - es.length = 1 := by omega
    rw [he]
    rfl
  have hpay : (ed ++ (es ++ ([control, pid] ++ payload))).drop 16 = payload := by
    have hassoc : ed ++ (es ++ ([control, pid] ++ payload)) =
        (ed ++ es ++ [control, pid]) ++ payload := by
      simp [List.append_assoc]
    rw [hassoc]
    exact List.drop_left' (by
      simp only [List.length_append, hedlen, heslen, List.length_cons,
        List.length_nil])
  have hassoc2 : ed ++ es ++ [control, pid] ++ payload =
      ed ++ (es ++ ([control, pid] ++ payload)) := by
    simp [List.append_assoc]
  simp only [AX25Frame.decode, hassoc2, if_neg hlen16, htake, hdrop, htake2,
    hislast, heddec, hesdec, h14, h15, hpay]

/-- Witness for claim C4 at a concrete frame (HA7FLR→GROUND UI frame). -/
theorem ax25_encode_decode_roundtrip_witness :
    (AX25Frame.encode ⟨⟨[72, 65, 55, 70, 76, 82], 0⟩, ⟨[71, 82, 79, 85, 78, 68], 0⟩,
      0x03, 0xF0, [0, 1]⟩).bind AX25Frame.decode =
      some ⟨⟨[72, 65, 55, 70, 76, 82], 0⟩, ⟨[71, 82, 79, 85, 78, 68], 0⟩,
        0x03, 0xF0, [0, 1]⟩ :=
  ax25_encode_decode_roundtrip _ (by decide) (by decide) (by decide) (by decide)
    (by decide) (by decide) (by decide) (by decide) (by decide) (by decide)

theorem rstrip_mem {x : Nat} {l : List Nat} (h : x ∈ rstripSpaces l) : x ∈ l := by
  simp only [rstripSpaces, List.mem_reverse] at h
  exact List.mem_reverse.mp ((List.dropWhile_sublist _).mem h)

/-- A 7-byte slice decodes without failure: every shifted character is at
most 0x7F and the SSID is in [0,15]. -/
theorem addr_decode_total (addr7 : List Nat) (h7 : addr7.length = 7) :
    AX25Address.decode addr7 =
      some ⟨rstripSpaces ((addr7.take 6).map fun b => (b >>> 1) &&& 0x7F),
        (addr7.getD 6 0 >>> 1) &&& 0x0F⟩ := by
  simp only [AX25Address.decode]
  rw [if_neg (by omega), if_neg ?_]
  intro hcontra
  rw [List.any_eq_true] at hcontra
  obtain ⟨c, hc, hc128⟩ := hcontra
  rw [decide_eq_true_eq] at hc128
  simp only [List.mem_map] at hc
  obtain ⟨b, _, rfl⟩ := hc
  have : b >>> 1 &&& 0x7F ≤ 0x7F := Nat.and_le_right
  omega

/-- Claim C10: `AX25Frame.decode` is total on every byte string of length
at least 16 whose byte 13 (source SSID byte) has its low bit set; the
decoded callsign characters are at most 0x7F, both SSIDs are in [0,15], and
control, PID and payload are read verbatim. -/
theorem ax25_decode_total (raw : List Nat) (hlen : 16 ≤ raw.length)
    (hbit : raw.getD 13 0 &&& 1 = 1) :
    ∃ fr, AX25Frame.decode raw = some fr ∧
      fr.destination.ssid ≤ 15 ∧ fr.source.ssid ≤ 15 ∧
      (∀ c ∈ fr.destination.callsign, c ≤ 0x7F) ∧
      (∀ c ∈ fr.source.callsign, c ≤ 0x7F) ∧
      fr.control = raw.getD 14 0 ∧ fr.pid = raw.getD 15 0 ∧
      fr.payload = raw.drop 16 := by
  have hdst7len : (raw.take 7).length = 7 := by
    simp only [List.length_take]
    omega
  have hsrc7len : (((raw.drop 7).take 7)).length = 7 := by
    simp only [List.length_take, List.length_drop]
    omega
  have hg13 : ((raw.drop 7).take 7).getD 6 0 = raw.getD 13 0 := by
    rw [List.getD_eq_getElem?_getD, List.getD_eq_getElem?_getD,
      List.getElem?_take, if_pos (by omega), List.getElem?_drop]
  have hislast : AX25Address.is_last ((raw.drop 7).take 7) = some true := by
    simp only [AX25Address.is_last]
    rw [if_neg (by omega), hg13, hbit]
    simp
  have hchars : ∀ (l : List Nat),
      ∀ c ∈ rstripSpaces ((l.take 6).map fun b => (b >>> 1) &&& 0x7F),
        c ≤ 0x7F := by
    intro l c hc
    have hc2 := rstrip_mem hc
    simp only [List.mem_map] at hc2
    obtain ⟨b, _, rfl⟩ := hc2
    exact Nat.and_le_right
  refine ⟨⟨⟨rstripSpaces (((raw.take 7).take 6).map fun b => (b >>> 1) &&& 0x7F),
      ((raw.take 7).getD 6 0 >>> 1) &&& 0x0F⟩,
      ⟨rstripSpaces ((((raw.drop 7).take 7).take 6).map fun b => (b >>> 1) &&& 0x7F),
      (((raw.drop 7).take 7).getD 6 0 >>> 1) &&& 0x0F⟩,
      raw.getD 14 0, raw.getD 15 0, raw.drop 16⟩, ?_, ?_, ?_, ?_, ?_, rfl, rfl, rfl⟩
  · simp only [AX25Frame.decode, if_neg (by omega : ¬ raw.length < 7 + 7 + 2),
      hislast, addr_decode_total _ hdst7len, addr_decode_total _ hsrc7len]
  · exact Nat.and_le_right
  · exact Nat.and_le_right
  · exact hchars (raw.take 7)
  · exact hchars ((raw.drop 7).take 7)

/-- Witness for claim C10: 16 zero bytes with byte 13 set to 1. -/
theorem ax25_decode_total_witness :
    ∃ fr, AX25Frame.decode
        (List.replicate 13 0 ++ [1] ++ [7, 9] ++ []) = some fr ∧
      fr.destination.ssid ≤ 15 ∧ fr.source.ssid ≤ 15 ∧
      (∀ c ∈ fr.destination.callsign, c ≤ 0x7F) ∧
      (∀ c ∈ fr.source.callsign, c ≤ 0x7F) ∧
      fr.control = (List.replicate 13 0 ++ [1] ++ [7, 9] ++ ([] : List Nat)).getD 14 0 ∧
      fr.pid = (List.replicate 13 0 ++ [1] ++ [7, 9] ++ ([] : List Nat)).getD 15 0 ∧
      fr.payload = (List.replicate 13 0 ++ [1] ++ [7, 9] ++ ([] : List Nat)).drop 16 :=
  ax25_decode_total _ (by decide) (by decide)

/-! ## Telemetry codec (src/proto.py)

Byte buffers are `List Nat`; the readers mirror `_take`'s bounds check and
raise `DecodeError("Truncated payload")` as `Except.error`.  Python strings
are modelled as lists of code points. -/

/-- Embedding of `read_u8`. -/
def read_u8 (buf : List Nat) (off : Nat) : Except String (Nat × Nat) :=
  if off + 1 ≤ buf.length then .ok (buf.getD off 0, off + 1)
  else .error "Truncated payload"

/-- Embedding of `read_u16be`. -/
def read_u16be (buf : List Nat) (off : Nat) : Except String (Nat × Nat) :=
  if off + 2 ≤ buf.length then
    .ok (256 * buf.getD off 0 + buf.getD (off + 1) 0, off + 2)
  else .error "Truncated payload"

/-- Embedding of `read_u32be`. -/
def read_u32be (buf : List Nat) (off : Nat) : Except String (Nat × Nat) :=
  if off + 4 ≤ buf.length then
    .ok (16777216 * buf.getD off 0 + 65536 * buf.getD (off + 1) 0 +
      256 * buf.getD (off + 2) 0 + buf.getD (off + 3) 0, off + 4)
  else .error "Truncated payload"

/-- Embedding of `read_i16be` (two's-complement signed 16-bit). -/
def read_i16be (buf : List Nat) (off : Nat) : Except String (Int × Nat) :=
  if off + 2 ≤ buf.length then
    let v := 256 * buf.getD off 0 + buf.getD (off + 1) 0
    .ok (if v < 32768 then (v : Int) else (v : Int) - 65536, off + 2)
  else .error "Truncated payload"

/-- Embedding of `read_i64be` (two's-complement signed 64-bit). -/
def read_i64be (buf : List Nat) (off : Nat) : Except String (Int × Nat) :=
  if off + 8 ≤ buf.length then
    let v := 72057594037927936 * buf.getD off 0 +
      281474976710656 * buf.getD (off + 1) 0 +
      1099511627776 * buf.getD (off + 2) 0 +
      4294967296 * buf.getD (off + 3) 0 +
      16777216 * buf.getD (off + 4) 0 + 65536 * buf.getD (off + 5) 0 +
      256 * buf.getD (off + 6) 0 + buf.getD (off + 7) 0
    .ok (if v < 9223372036854775808 then (v : Int)
      else (v : Int) - 18446744073709551616, off + 8)
  else .error "Truncated payload"

/-- Model of Python's strict UTF-8 decoder: `some` of the code points when
the bytes are well-formed UTF-8 (rejecting overlong forms, surrogates and
values above U+10FFFF), `none` otherwise. -/
def pyUtf8Decode : List Nat → Option (List Nat)
  | [] => some []
  | b :: rest =>
    if b < 0x80 then (pyUtf8Decode rest).map (fun s => b :: s)
    else if b < 0xC2 then none
    else if b < 0xE0 then
      match rest with
      | c1 :: rest2 =>
        if 0x80 ≤ c1 ∧ c1 < 0xC0 then
          (pyUtf8Decode rest2).map (fun s => ((b - 0xC0) * 64 + (c1 - 0x80)) :: s)
        else none
      | [] => none
    else if b < 0xF0 then
      match rest with
      | c1 :: c2 :: rest2 =>
        let lo1 := if b = 0xE0 then 0xA0 else 0x80
        let hi1 := if b = 0xED then 0xA0 else 0xC0
        if (lo1 ≤ c1 ∧ c1 < hi1) ∧ (0x80 ≤ c2 ∧ c2 < 0xC0) then
          (pyUtf8Decode rest2).map (fun s =>
            ((b - 0xE0) * 4096 + (c1 - 0x80) * 64 + (c2 - 0x80)) :: s)
        else none
      | _ => none
    else if b < 0xF5 then
      match rest with
      | c1 :: c2 :: c3 :: rest2 =>
        let lo1 := if b = 0xF0 then 0x90 else 0x80
        let hi1 := if b = 0xF4 then 0x90 else 0xC0
        if (lo1 ≤ c1 ∧ c1 < hi1) ∧ (0x80 ≤ c2 ∧ c2 < 0xC0) ∧
            (0x80 ≤ c3 ∧ c3 < 0xC0) then
          (pyUtf8Decode rest2).map (fun s =>
            ((b - 0xF0) * 262144 + (c1 - 0x80) * 4096 + (c2 - 0x80) * 64 +
              (c3 - 0x80)) :: s)
        else none
      | _ => none
    else none

/-- Embedding of `read_lp_string`: one length byte, then that many bytes,
decoded as UTF-8 when valid and as Latin-1 (code point = byte value,
lossless) otherwise.  Only the bounds check can fail. -/
def read_lp_string (buf : List Nat) (off : Nat) : Except String (List Nat × Nat) :=
  match read_u8 buf off with
  | .error e => .error e
  | .ok (n, off1) =>
    if off1 + n ≤ buf.length then
      let chunk := (buf.drop off1).take n
      .ok ((pyUtf8Decode chunk).getD chunk, off1 + n)
    else .error "Truncated payload"

/-- Embedding of the `TelemetryTL` record.  The Python float
`temp_raw / 10.0` is modelled as the exact rational. -/
structure TelemetryTL where
  sequence : Nat
  timestamp : Int
  uptime : Nat
  boot_count : Nat
  restart_reason : Nat
  mode : Nat
  flags : Nat
  battery_voltages_mv : Nat × Nat × Nat
  battery_currents_ma : Nat × Nat × Nat
  temperature_c : Rat
  motd : List Nat
deriving DecidableEq

/-- Embedding of `decode_telemetry`: sequential reads in source order; the
three-iteration battery loops are unrolled. -/
def decode_telemetry (payload : List Nat) : Except String TelemetryTL :=
  match read_u16be payload 0 with
  | .error e => .error e
  | .ok (packet_type, o1) =>
    if packet_type ≠ 0x544C then .error "Not a TL telemetry packet"
    else match read_u32be payload o1 with
    | .error e => .error e
    | .ok (sequence, o2) =>
      match read_i64be payload o2 with
      | .error e => .error e
      | .ok (timestamp, o3) =>
        match read_u32be payload o3 with
        | .error e => .error e
        | .ok (uptime, o4) =>
          match read_u32be payload o4 with
          | .error e => .error e
          | .ok (boot_count, o5) =>
            match read_u8 payload o5 with
            | .error e => .error e
            | .ok (restart_reason, o6) =>
              match read_u8 payload o6 with
              | .error e => .error e
              | .ok (mode, o7) =>
                match read_u8 payload o7 with
                | .error e => .error e
                | .ok (flags, o8) =>
                  match read_u16be payload o8 with
                  | .error e => .error e
                  | .ok (bv1, o9) =>
                    match read_u16be payload o9 with
                    | .error e => .error e
                    | .ok (bv2, o10) =>
                      match read_u16be payload o10 with
                      | .error e => .error e
                      | .ok (bv3, o11) =>
                        match read_u16be payload o11 with
                        | .error e => .error e
                        | .ok (bc1, o12) =>
                          match read_u16be payload o12 with
                          | .error e => .error e
                          | .ok (bc2, o13) =>
                            match read_u16be payload o13 with
                            | .error e => .error e
                            | .ok (bc3, o14) =>
                              match read_i16be payload o14 with
                              | .error e => .error e
                              | .ok (temp_raw, o15) =>
                                match read_lp_string payload o15 with
                                | .error e => .error e
                                | .ok (motd, _) =>
                                  .ok ⟨sequence, timestamp, uptime, boot_count,
                                    restart_reason, mode, flags, (bv1, bv2, bv3),
                                    (bc1, bc2, bc3), (temp_raw : Rat) / 10, motd⟩

theorem read_u8_inv {buf : List Nat} {off v o2 : Nat}
    (h : read_u8 buf off = .ok (v, o2)) :
    off + 1 ≤ buf.length ∧ v = buf.getD off 0 ∧ o2 = off + 1 := by
  by_cases hc : off + 1 ≤ buf.length
  · simp only [read_u8, if_pos hc, Except.ok.injEq, Prod.mk.injEq] at h
    exact ⟨hc, h.1.symm, h.2.symm⟩
  · simp [read_u8, hc] at h

theorem read_u16be_inv {buf : List Nat} {off v o2 : Nat}
    (h : read_u16be buf off = .ok (v, o2)) :
    off + 2 ≤ buf.length ∧ v = 256 * buf.getD off 0 + buf.getD (off + 1) 0 ∧
      o2 = off + 2 := by
  by_cases hc : off + 2 ≤ buf.length
  · simp only [read_u16be, if_pos hc, Except.ok.injEq, Prod.mk.injEq] at h
    exact ⟨hc, h.1.symm, h.2.symm⟩
  · simp [read_u16be, hc] at h

theorem read_u32be_inv {buf : List Nat} {off v o2 : Nat}
    (h : read_u32be buf off = .ok (v, o2)) :
    off + 4 ≤ buf.length ∧ o2 = off + 4 := by
  by_cases hc : off + 4 ≤ buf.length
  · simp only [read_u32be, if_pos hc, Except.ok.injEq, Prod.mk.injEq] at h
    exact ⟨hc, h.2.symm⟩
  · simp [read_u32be, hc] at h

theorem read_i16be_inv {buf : List Nat} {off : Nat} {v : Int} {o2 : Nat}
    (h : read_i16be buf off = .ok (v, o2)) :
    off + 2 ≤ buf.length ∧ o2 = off + 2 := by
  by_cases hc : off + 2 ≤ buf.length
  · simp only [read_i16be, if_pos hc, Except.ok.injEq, Prod.mk.injEq] at h
    exact ⟨hc, h.2.symm⟩
  · simp [read_i16be, hc] at h

theorem read_i64be_inv {buf : List Nat} {off : Nat} {v : Int} {o2 : Nat}
    (h : read_i64be buf off = .ok (v, o2)) :
    off + 8 ≤ buf.length ∧ o2 = off + 8 := by
  by_cases hc : off + 8 ≤ buf.length
  · simp only [read_i64be, if_pos hc, Except.ok.injEq, Prod.mk.injEq] at h
    exact ⟨hc, h.2.symm⟩
  · simp [read_i64be, hc] at h

theorem read_lp_string_inv {buf : List Nat} {off : Nat} {s : List Nat} {o2 : Nat}
    (h : read_lp_string buf off = .ok (s, o2)) :
    off + 1 + buf.getD off 0 ≤ buf.length := by
  rcases hu : read_u8 buf off with e | ⟨n, off1⟩
  · rw [read_lp_string, hu] at h
    exact Except.noConfusion h
  · obtain ⟨hc, hv, ho⟩ := read_u8_inv hu
    subst hv ho
    simp only [read_lp_string, hu] at h
    by_cases h2 : off + 1 + buf.getD off 0 ≤ buf.length
    · exact h2
    · rw [if_neg h2] at h
      exact Except.noConfusion h

/-- Success of `decode_telemetry` forces the buffer to hold all fixed
fields and the motd (40 + length-byte bytes) and the magic to be 0x544C. -/
theorem decode_telemetry_ok_inv {p : List Nat} {t : TelemetryTL}
    (ht : decode_telemetry p = .ok t) :
    40 + p.getD 39 0 ≤ p.length ∧
      256 * p.getD 0 0 + p.getD 1 0 = 0x544C := by
  rw [decode_telemetry] at ht
  rcases h0 : read_u16be p 0 with e | ⟨v0, o1⟩
  · simp only [h0] at ht
    exact Except.noConfusion ht
  · simp only [h0] at ht
    obtain ⟨hc0, hv0, ho0⟩ := read_u16be_inv h0
    subst ho0
    by_cases hpt : v0 ≠ 0x544C
    · rw [if_pos hpt] at ht
      exact Except.noConfusion ht
    · rw [if_neg hpt] at ht
      push_neg at hpt
      rcases h1 : read_u32be p (0 + 2) with e | ⟨v1, o2⟩
      · simp only [h1] at ht
        exact Except.noConfusion ht
      · simp only [h1] at ht
        obtain ⟨hc1, ho1⟩ := read_u32be_inv h1
        subst ho1
        rcases h2 : read_i64be p (0 + 2 + 4) with e | ⟨v2, o3⟩
        · simp only [h2] at ht
          exact Except.noConfusion ht
        · simp only [h2] at ht
          obtain ⟨hc2, ho2⟩ := read_i64be_inv h2
          subst ho2
          rcases h3 : read_u32be p (0 + 2 + 4 + 8) with e | ⟨v3, o4⟩
          · simp only [h3] at ht
            exact Except.noConfusion ht
          · simp only [h3] at ht
            obtain ⟨hc3, ho3⟩ := read_u32be_inv h3
            subst ho3
            rcases h4 : read_u32be p (0 + 2 + 4 + 8 + 4) with e | ⟨v4, o5⟩
            · simp only [h4] at ht
              exact Except.noConfusion ht
            · simp only [h4] at ht
              obtain ⟨hc4, ho4⟩ := read_u32be_inv h4
              subst ho4
              rcases h5 : read_u8 p (0 + 2 + 4 + 8 + 4 + 4) with e | ⟨v5, o6⟩
              · simp only [h5] at ht
                exact Except.noConfusion ht
              · simp only [h5] at ht
                obtain ⟨hc5, hv5, ho5⟩ := read_u8_inv h5
                subst ho5
                rcases h6 : read_u8 p (0 + 2 + 4 + 8 + 4 + 4 + 1) with e | ⟨v6, o7⟩
                · simp only [h6] at ht
                  exact Except.noConfusion ht
                · simp only [h6] at ht
                  obtain ⟨hc6, hv6, ho6⟩ := read_u8_inv h6
                  subst ho6
                  rcases h7 : read_u8 p (0 + 2 + 4 + 8 + 4 + 4 + 1 + 1) with
                    e | ⟨v7, o8⟩
                  · simp only [h7] at ht
                    exact Except.noConfusion ht
                  · simp only [h7] at ht
                    obtain ⟨hc7, hv7, ho7⟩ := read_u8_inv h7
                    subst ho7
                    rcases h8 : read_u16be p (0 + 2 + 4 + 8 + 4 + 4 + 1 + 1 + 1)
                      with e | ⟨v8, o9⟩
                    · simp only [h8] at ht
                      exact Except.noConfusion ht
                    · simp only [h8] at ht
                      obtain ⟨hc8, hv8, ho8⟩ := read_u16be_inv h8
                      subst ho8
                      rcases h9 : read_u16be p
                        (0 + 2 + 4 + 8 + 4 + 4 + 1 + 1 + 1 + 2) with e | ⟨v9, o10⟩
                      · simp only [h9] at ht
                        exact Except.noConfusion ht
                      · simp only [h9] at ht
                        obtain ⟨hc9, hv9, ho9⟩ := read_u16be_inv h9
                        subst ho9
                        rcases h10 : read_u16be p
                          (0 + 2 + 4 + 8 + 4 + 4 + 1 + 1 + 1 + 2 + 2) with
                          e | ⟨v10, o11⟩
                        · simp only [h10] at ht
                          exact Except.noConfusion ht
                        · simp only [h10] at ht
                          obtain ⟨hc10, hv10, ho10⟩ := read_u16be_inv h10
                          subst ho10
                          rcases h11 : read_u16be p
                            (0 + 2 + 4 + 8 + 4 + 4 + 1 + 1 + 1 + 2 + 2 + 2) with
                            e | ⟨v11, o12⟩
                          · simp only [h11] at ht
                            exact Except.noConfusion ht
                          · simp only [h11] at ht
                            obtain ⟨hc11, hv11, ho11⟩ := read_u16be_inv h11
                            subst ho11
                            rcases h12 : read_u16be p
                              (0 + 2 + 4 + 8 + 4 + 4 + 1 + 1 + 1 + 2 + 2 + 2 + 2)
                              with e | ⟨v12, o13⟩
                            · simp only [h12] at ht
                              exact Except.noConfusion ht
                            · simp only [h12] at ht
                              obtain ⟨hc12, hv12, ho12⟩ := read_u16be_inv h12
                              subst ho12
                              rcases h13 : read_u16be p
                                (0 + 2 + 4 + 8 + 4 + 4 + 1 + 1 + 1 + 2 + 2 + 2 +
                                  2 + 2) with e | ⟨v13, o14⟩
                              · simp only [h13] at ht
                                exact Except.noConfusion ht
                              · simp only [h13] at ht
                                obtain ⟨hc13, hv13, ho13⟩ := read_u16be_inv h13
                                subst ho13
                                rcases h14 : read_i16be p
                                  (0 + 2 + 4 + 8 + 4 + 4 + 1 + 1 + 1 + 2 + 2 + 2 +
                                    2 + 2 + 2) with e | ⟨v14, o15⟩
                                · simp only [h14] at ht
                                  exact Except.noConfusion ht
                                · simp only [h14] at ht
                                  obtain ⟨hc14, ho14⟩ := read_i16be_inv h14
                                  subst ho14
                                  rcases h15 : read_lp_string p
                                    (0 + 2 + 4 + 8 + 4 + 4 + 1 + 1 + 1 + 2 + 2 +
                                      2 + 2 + 2 + 2 + 2) with e | ⟨v15, o16⟩
                                  · simp only [h15] at ht
                                    exact Except.noConfusion ht
                                  · have hlp := read_lp_string_inv h15
                                    constructor
                                    · have h39 : (0 + 2 + 4 + 8 + 4 + 4 + 1 + 1 +
                                        1 + 2 + 2 + 2 + 2 + 2 + 2 + 2 : Nat) = 39 :=
                                        by norm_num
                                      rw [h39] at hlp
                                      omega
                                    · rw [← hv0, hpt]

/-- The record `decode_telemetry` produces on success, with every field
given by direct indexing. -/
def telemetryOf (p : List Nat) : TelemetryTL where
  sequence := 16777216 * p.getD 2 0 + 65536 * p.getD 3 0 + 256 * p.getD 4 0 +
    p.getD 5 0
  timestamp :=
    let v := 72057594037927936 * p.getD 6 0 + 281474976710656 * p.getD 7 0 +
      1099511627776 * p.getD 8 0 + 4294967296 * p.getD 9 0 +
      16777216 * p.getD 10 0 + 65536 * p.getD 11 0 + 256 * p.getD 12 0 +
      p.getD 13 0
    if v < 9223372036854775808 then (v : Int) else (v : Int) - 18446744073709551616
  uptime := 16777216 * p.getD 14 0 + 65536 * p.getD 15 0 + 256 * p.getD 16 0 +
    p.getD 17 0
  boot_count := 16777216 * p.getD 18 0 + 65536 * p.getD 19 0 +
    256 * p.getD 20 0 + p.getD 21 0
  restart_reason := p.getD 22 0
  mode := p.getD 23 0
  flags := p.getD 24 0
  battery_voltages_mv := (256 * p.getD 25 0 + p.getD 26 0,
    256 * p.getD 27 0 + p.getD 28 0, 256 * p.getD 29 0 + p.getD 30 0)
  battery_currents_ma := (256 * p.getD 31 0 + p.getD 32 0,
    256 * p.getD 33 0 + p.getD 34 0, 256 * p.getD 35 0 + p.getD 36 0)
  temperature_c :=
    let v := 256 * p.getD 37 0 + p.getD 38 0
    ((if v < 32768 then (v : Int) else (v : Int) - 65536 : Int) : Rat) / 10
  motd :=
    let chunk := (p.drop 40).take (p.getD 39 0)
    (pyUtf8Decode chunk).getD chunk

/-- When the buffer holds all the fields and the magic matches,
`decode_telemetry` succeeds with the directly-indexed record. -/
theorem decode_telemetry_ok_form (p : List Nat)
    (hA : 40 + p.getD 39 0 ≤ p.length)
    (hB : 256 * p.getD 0 0 + p.getD 1 0 = 0x544C) :
    decode_telemetry p = .ok (telemetryOf p) := by
  have hk : ∀ k : Nat, k ≤ 40 → k ≤ p.length := fun k h => Nat.le_trans h (by omega)
  simp only [List.getD_eq_getElem?_getD] at hA hB
  simp [decode_telemetry, read_u16be, read_u32be, read_u8, read_i64be,
    read_i16be, read_lp_string, hk, hA, hB, telemetryOf]

/-- Claim C6: `decode_telemetry` fails exactly when the payload is too
short for the fields it reads (40 fixed bytes plus the length-prefixed
motd) or when the leading big-endian u16 is not 0x544C; and invalid UTF-8
in the motd never causes a failure — the Latin-1 fallback preserves every
byte of the motd chunk. -/
theorem decode_telemetry_fails_iff (payload : List Nat) :
    ((∃ t, decode_telemetry payload = .ok t) ↔
      40 + payload.getD 39 0 ≤ payload.length ∧
        256 * payload.getD 0 0 + payload.getD 1 0 = 0x544C) ∧
    (∀ t, decode_telemetry payload = .ok t →
      pyUtf8Decode ((payload.drop 40).take (payload.getD 39 0)) = none →
      t.motd = (payload.drop 40).take (payload.getD 39 0)) := by
  constructor
  · constructor
    · rintro ⟨t, ht⟩
      exact decode_telemetry_ok_inv ht
    · rintro ⟨hA, hB⟩
      exact ⟨telemetryOf payload, decode_telemetry_ok_form payload hA hB⟩
  · intro t ht hnone
    obtain ⟨hA, hB⟩ := decode_telemetry_ok_inv ht
    rw [decode_telemetry_ok_form payload hA hB] at ht
    injection ht with ht2
    rw [← ht2]
    simp only [telemetryOf]
    rw [hnone]
    rfl

/-- Telemetry payload with valid header and a single invalid-UTF-8 motd
byte 0xFF. -/
def c6Payload : List Nat := [0x54, 0x4C] ++ List.replicate 37 0 ++ [1, 0xFF]

/-- Witness for claim C6: the 41-byte payload decodes, its motd preserves
the invalid byte 0xFF, and a 1-byte payload fails. -/
theorem decode_telemetry_fails_iff_witness :
    (∃ t, decode_telemetry c6Payload = .ok t ∧ t.motd = [0xFF]) ∧
    ¬ (∃ t, decode_telemetry [0x54] = .ok t) := by
  constructor
  · have h := decode_telemetry_fails_iff c6Payload
    obtain ⟨t, ht⟩ := h.1.mpr ⟨by decide, by decide⟩
    exact ⟨t, ht, h.2 t ht (by decide)⟩
  · intro hex
    have h := (decode_telemetry_fails_iff [0x54]).1.mp hex
    revert h
    decide

/-! ## HDLC framer (src/modem_g3ruh.py, `_extract_hdlc_frames`) -/

/-- LSB-first bits of the flag byte 0x7E. -/
def flagBits : List Nat := bytes_to_bits_lsb_first [0x7E]

/-- Scan for flag positions: position `i` is a flag when the 8-bit window
starting there equals `flagBits`.  `k` counts the remaining window starts,
mirroring `range(0, len(bits) - 8 + 1)`. -/
def findFlagsAux : Nat → Nat → List Nat → List Nat
  | 0, _, _ => []
  | k + 1, i, l =>
    (if l.take 8 = flagBits then [i] else []) ++ findFlagsAux k (i + 1) l.tail

/-- Embedding of the flag-scan loop of `_extract_hdlc_frames`. -/
def findFlags (bits : List Nat) : List Nat :=
  findFlagsAux (bits.length + 1 - 8) 0 bits

/-- Processing of one adjacent flag pair `(a, b)` in
`_extract_hdlc_frames`: skip empty spans, require 8·(7+7+2+2) payload bits,
unstuff, byte-convert, split off the 2-byte little-endian FCS and compare
with CRC-16/X-25. -/
def hdlc_candidate (bits : List Nat) (a b : Nat) : Option (List Nat) :=
  if b ≤ a + 8 then none
  else
    let payload_bits := (bits.drop (a + 8)).take (b - (a + 8))
    if payload_bits.length < 8 * (7 + 7 + 2 + 2) then none
    else
      let data := bits_to_bytes_lsb_first (bitunstuff payload_bits)
      if data.length < 2 then none
      else
        let frame_wo_fcs := data.take (data.length - 2)
        let got_fcs := data.getD (data.length - 2) 0 |||
          (data.getD (data.length - 1) 0 <<< 8)
        if got_fcs ≠ crc16_x25 frame_wo_fcs then none
        else some frame_wo_fcs

/-- Embedding of `_extract_hdlc_frames`: candidates from adjacent flag
pairs, silently discarding the failures. -/
def extract_hdlc_frames (bits : List Nat) : List (List Nat) :=
  let flags := findFlags bits
  (flags.zip flags.tail).filterMap (fun p => hdlc_candidate bits p.1 p.2)

/-- Modelled from the spec (§4.3): a frame is valid for the flag pair
`(a, b)` when the span holds at least 7+7+2+2 bytes of bits, the frame is
the unstuffed bytes excluding the last two, and CRC-16/X-25 over the frame
equals the little-endian value of those last two bytes. -/
def specFrameAt (bits : List Nat) (a b : Nat) (frame : List Nat) : Prop :=
  let data := bits_to_bytes_lsb_first
    (bitunstuff ((bits.drop (a + 8)).take (b - (a + 8))))
  a + 8 + 8 * (7 + 7 + 2 + 2) ≤ b ∧ 2 ≤ data.length ∧
    frame = data.take (data.length - 2) ∧
    crc16_x25 frame =
      data.getD (data.length - 2) 0 + 256 * data.getD (data.length - 1) 0

theorem lor_shift8 (x y : Nat) (h : x < 256) : x ||| (y <<< 8) = x + 256 * y := by
  have hp : (2 : Nat) ^ 8 = 256 := rfl
  apply Nat.eq_of_testBit_eq
  intro i
  rw [Nat.testBit_lor, Nat.testBit_shiftLeft]
  rcases Nat.lt_or_ge i 8 with hi | hi
  · have h1 : (x + 256 * y) % 2 ^ 8 = x := by rw [hp]; omega
    have h2 : (x + 256 * y).testBit i = ((x + 256 * y) % 2 ^ 8).testBit i := by
      rw [Nat.testBit_mod_two_pow]
      simp [hi]
    rw [h2, h1]
    simp [Nat.not_le.mpr hi]
  · have hdiv : (x + 256 * y) >>> 8 = y := by
      rw [Nat.shiftRight_eq_div_pow, hp]
      omega
    have h3 : y.testBit (i - 8) = (x + 256 * y).testBit i := by
      conv_lhs => rw [← hdiv]
      rw [Nat.testBit_shiftRight, Nat.add_sub_cancel' hi]
    have h4 : x.testBit i = false := by
      apply Nat.testBit_lt_two_pow
      calc x < 256 := h
        _ = 2 ^ 8 := hp.symm
        _ ≤ 2 ^ i := Nat.pow_le_pow_right (by omega) hi
    rw [← h3, h4]
    simp [hi]

theorem bits_to_bytes_aux_lt (l : List Nat) :
    ∀ acc n, acc < 2 ^ n → n < 8 → ∀ x ∈ bits_to_bytes_aux acc n l, x < 256 := by
  induction l with
  | nil => intro acc n _ _ x hx; simp [bits_to_bytes_aux] at hx
  | cons bit rest ih =>
    intro acc n hacc hn x hx
    simp only [bits_to_bytes_aux] at hx
    have hpow : (2 : Nat) ^ n < 2 ^ (n + 1) := by
      rw [Nat.pow_succ]
      have := Nat.two_pow_pos n
      omega
    have hbit : (bit &&& 1) <<< n < 2 ^ (n + 1) := by
      have h1 : bit &&& 1 ≤ 1 := by rw [Nat.and_one_is_mod]; omega
      rw [Nat.shiftLeft_eq]
      calc (bit &&& 1) * 2 ^ n ≤ 1 * 2 ^ n := Nat.mul_le_mul_right _ h1
        _ = 2 ^ n := Nat.one_mul _
        _ < 2 ^ (n + 1) := hpow
    have hacc2 : acc ||| ((bit &&& 1) <<< n) < 2 ^ (n + 1) :=
      Nat.or_lt_two_pow (Nat.lt_trans hacc hpow) hbit
    by_cases h8 : n + 1 = 8
    · rw [if_pos h8] at hx
      rcases List.mem_cons.mp hx with rfl | hx2
      · have h256 : (2 : Nat) ^ (n + 1) = 256 := by rw [h8]; norm_num
        omega
      · exact ih 0 0 (by norm_num) (by norm_num) x hx2
    · rw [if_neg h8] at hx
      exact ih _ (n + 1) hacc2 (by omega) x hx

theorem getD_mem_of_lt {α} {l : List α} {n : Nat} (h : n < l.length) (d : α) :
    l.getD n d ∈ l := by
  rw [List.getD_eq_getElem?_getD, List.getElem?_eq_getElem h]
  exact List.getElem_mem h

theorem bits_to_bytes_lt (l : List Nat) :
    ∀ x ∈ bits_to_bytes_lsb_first l, x < 256 :=
  bits_to_bytes_aux_lt l 0 0 (by norm_num) (by norm_num)

theorem mem_zip_tail {l : List Nat} {a b : Nat} :
    (a, b) ∈ l.zip l.tail ↔ ∃ i, l[i]? = some a ∧ l[i + 1]? = some b := by
  induction l with
  | nil => simp
  | cons x t ih =>
    cases t with
    | nil =>
      simp only [List.tail_cons, List.zip_nil_right, List.not_mem_nil,
        false_iff, not_exists, not_and]
      intro i h1 h2
      cases i with
      | zero => simp at h2
      | succ j => simp at h1
    | cons y t2 =>
      rw [List.tail_cons, List.zip_cons_cons]
      constructor
      · intro h
        rcases List.mem_cons.mp h with heq | hmem
        · simp only [Prod.mk.injEq] at heq
          obtain ⟨rfl, rfl⟩ := heq
          exact ⟨0, by simp, by simp⟩
        · obtain ⟨i, h1, h2⟩ := ih.mp (by rw [List.tail_cons]; exact hmem)
          exact ⟨i + 1, by simpa using h1, by simpa using h2⟩
      · rintro ⟨i, h1, h2⟩
        cases i with
        | zero =>
          rw [List.getElem?_cons_zero, Option.some.injEq] at h1
          rw [List.getElem?_cons_succ, List.getElem?_cons_zero,
            Option.some.injEq] at h2
          subst h1 h2
          exact List.mem_cons_self _ _
        | succ j =>
          rw [List.getElem?_cons_succ] at h1 h2
          exact List.mem_cons_of_mem _
            (ih.mpr ⟨j, h1, by simpa using h2⟩)

theorem mem_findFlagsAux (bits : List Nat) :
    ∀ (k i a : Nat),
      (a ∈ findFlagsAux k i (bits.drop i) ↔
        ∃ j, j < k ∧ a = i + j ∧ (bits.drop (i + j)).take 8 = flagBits) := by
  intro k
  induction k with
  | zero => intro i a; simp [findFlagsAux]
  | succ n ih =>
    intro i a
    simp only [findFlagsAux, List.tail_drop, List.mem_append]
    constructor
    · intro h
      rcases h with h | h
      · by_cases hf : (bits.drop i).take 8 = flagBits
        · rw [if_pos hf] at h
          simp only [List.mem_singleton] at h
          exact ⟨0, by omega, by omega, by simpa using hf⟩
        · rw [if_neg hf] at h
          simp at h
      · obtain ⟨j, hj, ha, hsl⟩ := (ih (i + 1) a).mp h
        refine ⟨j + 1, by omega, by omega, ?_⟩
        rwa [show i + (j + 1) = i + 1 + j by omega]
    · rintro ⟨j, hj, ha, hsl⟩
      cases j with
      | zero =>
        left
        rw [if_pos (by simpa using hsl)]
        simp [ha]
      | succ m =>
        right
        refine (ih (i + 1) a).mpr ⟨m, by omega, by omega, ?_⟩
        rwa [show i + 1 + m = i + (m + 1) by omega]

theorem mem_findFlags (bits : List Nat) (a : Nat) :
    a ∈ findFlags bits ↔
      a + 8 ≤ bits.length ∧ (bits.drop a).take 8 = flagBits := by
  have h := mem_findFlagsAux bits (bits.length + 1 - 8) 0 a
  rw [List.drop_zero] at h
  rw [findFlags, h]
  constructor
  · rintro ⟨j, hj, rfl, hsl⟩
    exact ⟨by omega, by simpa using hsl⟩
  · rintro ⟨hlen, hsl⟩
    exact ⟨a, by omega, by omega, by simpa using hsl⟩

theorem hdlc_candidate_some_iff (bits : List Nat) (a b : Nat) (frame : List Nat)
    (hble : b + 8 ≤ bits.length) :
    hdlc_candidate bits a b = some frame ↔ specFrameAt bits a b frame := by
  by_cases h1 : b ≤ a + 8
  · simp only [hdlc_candidate, specFrameAt, if_pos h1]
    constructor
    · intro h
      exact Option.noConfusion h
    · rintro ⟨h144, _⟩
      omega
  · have hplen : ((bits.drop (a + 8)).take (b - (a + 8))).length = b - (a + 8) := by
      simp only [List.length_take, List.length_drop]
      omega
    simp only [hdlc_candidate, specFrameAt, if_neg h1, hplen]
    by_cases h2 : b - (a + 8) < 8 * (7 + 7 + 2 + 2)
    · rw [if_pos h2]
      constructor
      · intro h
        exact Option.noConfusion h
      · rintro ⟨h144, _⟩
        omega
    · rw [if_neg h2]
      by_cases h3 : (bits_to_bytes_lsb_first
          (bitunstuff ((bits.drop (a + 8)).take (b - (a + 8))))).length < 2
      · rw [if_pos h3]
        constructor
        · intro h
          exact Option.noConfusion h
        · rintro ⟨_, h2two, _⟩
          omega
      · rw [if_neg h3]
        have hfcs0 : (bits_to_bytes_lsb_first
            (bitunstuff ((bits.drop (a + 8)).take (b - (a + 8))))).getD
            ((bits_to_bytes_lsb_first
              (bitunstuff ((bits.drop (a + 8)).take (b - (a + 8))))).length - 2)
            0 < 256 := by
          apply bits_to_bytes_lt
          apply getD_mem_of_lt
          omega
        have hlor := lor_shift8 _
          ((bits_to_bytes_lsb_first
            (bitunstuff ((bits.drop (a + 8)).take (b - (a + 8))))).getD
            ((bits_to_bytes_lsb_first
              (bitunstuff ((bits.drop (a + 8)).take (b - (a + 8))))).length - 1) 0)
          hfcs0
        by_cases h4 : (bits_to_bytes_lsb_first
            (bitunstuff ((bits.drop (a + 8)).take (b - (a + 8))))).getD
            ((bits_to_bytes_lsb_first
              (bitunstuff ((bits.drop (a + 8)).take (b - (a + 8))))).length - 2) 0 |||
            ((bits_to_bytes_lsb_first
              (bitunstuff ((bits.drop (a + 8)).take (b - (a + 8))))).getD
              ((bits_to_bytes_lsb_first
                (bitunstuff ((bits.drop (a + 8)).take (b - (a + 8))))).length - 1) 0
              <<< 8) ≠
            crc16_x25 ((bits_to_bytes_lsb_first
              (bitunstuff ((bits.drop (a + 8)).take (b - (a + 8))))).take
              ((bits_to_bytes_lsb_first
                (bitunstuff ((bits.drop (a + 8)).take (b - (a + 8))))).length - 2))
        · rw [if_pos h4]
          constructor
          · intro h
            exact Option.noConfusion h
          · rintro ⟨_, _, hfr, hcrc⟩
            rw [hfr] at hcrc
            exact absurd (by rw [hlor, ← hcrc]) h4
        · rw [if_neg h4]
          push_neg at h4
          constructor
          · intro h
            rw [Option.some.injEq] at h
            refine ⟨by omega, by omega, h.symm, ?_⟩
            rw [h.symm, ← hlor]
            exact h4.symm
          · rintro ⟨_, _, hfr, _⟩
            rw [hfr]

/-- Claim C7: a frame is yielded by the HDLC extractor exactly when it
comes from an adjacent pair of detected flag positions whose span holds at
least 8·(7+7+2+2) bits and whose unstuffed bytes pass the CRC-16/X-25 check
against the trailing little-endian FCS; CRC failures are silently
discarded. -/
theorem extract_hdlc_frames_iff (bits : List Nat) (frame : List Nat) :
    frame ∈ extract_hdlc_frames bits ↔
      ∃ i a b, (findFlags bits)[i]? = some a ∧
        (findFlags bits)[i + 1]? = some b ∧ specFrameAt bits a b frame := by
  simp only [extract_hdlc_frames, List.mem_filterMap]
  constructor
  · rintro ⟨⟨a, b⟩, hmem, hcand⟩
    obtain ⟨i, h1, h2⟩ := mem_zip_tail.mp hmem
    have hble : b + 8 ≤ bits.length :=
      ((mem_findFlags bits b).mp (List.getElem?_mem h2)).1
    exact ⟨i, a, b, h1, h2,
      (hdlc_candidate_some_iff bits a b frame hble).mp hcand⟩
  · rintro ⟨i, a, b, h1, h2, hspec⟩
    have hble : b + 8 ≤ bits.length :=
      ((mem_findFlags bits b).mp (List.getElem?_mem h2)).1
    exact ⟨(a, b), mem_zip_tail.mpr ⟨i, h1, h2⟩,
      (hdlc_candidate_some_iff bits a b frame hble).mpr hspec⟩

/-! ## Modem (src/modem_g3ruh.py)

The WAV container is abstracted away: a file is its list of signed 16-bit
PCM samples plus the sample rate.  The source thresholds the float window
average `sum(window)/spb >= 0`; since the window sums are integers that are
exactly representable as floats and `spb > 0`, this equals `0 ≤ sum`, which
is how the threshold is embedded. -/

/-- Embedding of the `DemodResult` dataclass. -/
structure DemodResult where
  frames : List (List Nat)
  chosen_phase : Nat
  inverted : Bool
  descramble_variant : Nat
deriving DecidableEq

/-- Downsampling loop of `demod_wav_to_ax25_frames`: sum each window of
`spb` samples, threshold at zero, drop the trailing partial window. -/
def chunkAux (spb : Nat) : Nat → Int → List Int → List Nat
  | _, _, [] => []
  | n, acc, s :: rest =>
    let acc2 := acc + s
    if n + 1 = spb then (if 0 ≤ acc2 then 1 else 0) :: chunkAux spb 0 0 rest
    else chunkAux spb (n + 1) acc2 rest

/-- Binary level sequence for one starting phase. -/
def window_levels (samples : List Int) (spb phase : Nat) : List Nat :=
  chunkAux spb 0 0 (samples.drop phase)

/-- One `(phase, inverted, variant)` decode attempt of the blind search. -/
def demod_candidate (samples : List Int) (spb phase : Nat) (inverted : Bool)
    (variant : Nat) : DemodResult :=
  let levels := window_levels samples spb phase
  let lev := levels.map (fun l => l ^^^ (if inverted then 1 else 0))
  let bits_nrzi := nrzi_decode lev
  let bits := g3ruh_descramble bits_nrzi variant
  ⟨extract_hdlc_frames bits, phase, inverted, variant⟩

/-- All attempts in source iteration order: phase ascending, inverted false
before true, variant 0 before 1. -/
def demod_candidates (samples : List Int) (spb : Nat) : List DemodResult :=
  (List.range spb).flatMap (fun phase =>
    [false, true].flatMap (fun inv =>
      [0, 1].map (fun variant => demod_candidate samples spb phase inv variant)))

/-- Best-candidate selection: skip empty results, replace only on strictly
more frames (so the first best wins ties). -/
def pick_best : Option DemodResult → List DemodResult → Option DemodResult
  | best, [] => best
  | best, c :: rest =>
    if c.frames.isEmpty then pick_best best rest
    else
      match best with
      | none => pick_best (some c) rest
      | some b =>
        if b.frames.length < c.frames.length then pick_best (some c) rest
        else pick_best (some b) rest

/-- Embedding of `demod_wav_to_ax25_frames` on the PCM samples.  The
source's float check that `fs/baud` is integral is the divisibility check;
`none` models that `ValueError`.  When no attempt yields frames the empty
default result is returned. -/
def demod_wav_to_ax25_frames (samples : List Int) (fs baud : Nat) :
    Option DemodResult :=
  if fs % baud ≠ 0 then none
  else
    let spb := fs / baud
    some ((pick_best none (demod_candidates samples spb)).getD ⟨[], 0, false, 0⟩)

/-- Embedding of `mod_ax25_frame_to_wav` with its default parameters
(baud 9600, fs 48000 so spb = 5, amplitude 20000, 32 pre-flags, 8
post-flags, scramble variant 0, initial level 1), producing the PCM
samples: flags, stuffed frame+FCS bits, flags; scrambled, NRZI-encoded,
each level held for 5 samples of ±20000. -/
def mod_ax25_frame_to_samples (frame : List Nat) : List Int :=
  let fcs := crc16_x25 frame
  let frame_fcs := frame ++ [fcs % 256, fcs / 256]
  let bits := bytes_to_bits_lsb_first (List.replicate 32 0x7E) ++
    bitstuff (bytes_to_bits_lsb_first frame_fcs) ++
    bytes_to_bits_lsb_first (List.replicate 8 0x7E)
  let scrambled := g3ruh_scramble bits 0
  let levels := nrzi_encode scrambled 1
  levels.flatMap (fun lvl =>
    List.replicate 5 (if lvl = 0 then (-20000 : Int) else 20000))

/-- The 20-byte AX.25 UI frame HA7FLR←GROUND with 4 payload bytes (the
encoding of the S3/S4 example frame). -/
def c2Frame : List Nat :=
  [144, 130, 110, 140, 152, 164, 96, 142, 164, 158, 170, 156, 136, 97,
    3, 240, 0, 1, 2, 3]

set_option maxHeartbeats 4000000 in
/-- Claim C2 (counterexample): modulating the 20-byte frame with the
default scramble variant 0 and demodulating does NOT report
`descramble_variant = 0`: the blind search recovers the frame only with
the opposite convention, variant 1. -/
theorem modem_roundtrip_variant_counterexample :
    (demod_wav_to_ax25_frames (mod_ax25_frame_to_samples c2Frame) 48000 9600).map
      DemodResult.descramble_variant ≠ some 0 := by
  decide

set_option maxHeartbeats 4000000 in
/-- Claim C2 (amended): for the 20-byte AX.25 UI frame of scenario S4,
demodulating the WAV produced with the defaults (baud 9600, fs 48000,
scramble variant 0, initial level 1) yields exactly one frame equal to the
input, with chosen_phase = 0, inverted = false, and descramble_variant = 1 —
the convention opposite to the encoder's, since same-variant descrambling
does not invert the scrambler. -/
theorem modem_roundtrip_concrete :
    demod_wav_to_ax25_frames (mod_ax25_frame_to_samples c2Frame) 48000 9600 =
      some ⟨[c2Frame], 0, false, 1⟩ := by
  decide

/-! ## Robot36 decoder tail (src/robot36_decode.py, lines 194–245)

The floating-point signal-processing front end (Butterworth band-pass,
Hilbert transform, STFT sync detection and `_pick_sync_chain`) is
abstracted: the render stage below takes the detected line-sync chain and
the instantaneous-frequency signal as inputs, which is exactly how claim C9
is conditioned ("whenever the detected line-sync chain has fewer than 200
lines…").  Float arithmetic on sample values is modelled over `Rat`; the
claim concerns only the failure branch and the output shape, neither of
which depends on the numeric values. -/

/-- Embedding of the `Robot36Timings` dataclass (seconds, exact). -/
structure Robot36Timings where
  sync_s : Rat := 9 / 1000
  porch_s : Rat := 3 / 1000
  y_s : Rat := 88 / 1000
  sep_s : Rat := 45 / 10000
  c_s : Rat := 44 / 1000

/-- Embedding of `_freq_to_byte` for one sample: 1500 Hz → 0, 2300 Hz →
255, clipped; `astype(uint8)` truncates, which is `floor` after the clip. -/
def freq_to_byte (f : Rat) : Nat :=
  (Rat.floor (min (max ((f - 1500) * 255 / 800) 0) 255)).toNat

/-- Embedding of one pixel of `_ycbcr_to_rgb` (BT.601 full-range-ish). -/
def ycbcr_to_rgb_px (y cb cr : Nat) : Nat × Nat × Nat :=
  let yf : Rat := y
  let cbf : Rat := (cb : Rat) - 128
  let crf : Rat := (cr : Rat) - 128
  let r := yf + (1402 / 1000) * crf
  let g := yf - (344136 / 1000000) * cbf - (714136 / 1000000) * crf
  let b := yf + (1772 / 1000) * cbf
  ((Rat.floor (min (max r 0) 255)).toNat,
   (Rat.floor (min (max g 0) 255)).toNat,
   (Rat.floor (min (max b 0) 255)).toNat)

/-- Row-wise `_ycbcr_to_rgb`: one luma row with the pair's chroma rows. -/
def ycbcr_row : List Nat → List Nat → List Nat → List (Nat × Nat × Nat)
  | y :: ys, cb :: cbs, cr :: crs => ycbcr_to_rgb_px y cb cr :: ycbcr_row ys cbs crs
  | _, _, _ => []

/-- Sampling of 320 pixel centres from the instantaneous-frequency signal:
`index = start + (k + 0.5)·span·fs/320`, truncated and clipped to the
signal (`np.clip(..., 0, size-1)` then indexing). -/
def sampleRow (instFreq : List Rat) (start : Int) (span : Rat) (fs : Nat) :
    List Nat :=
  (List.range 320).map (fun (k : Nat) =>
    let idx : Int := start + Rat.floor (((k : Rat) + 1 / 2) * (span * (fs : Rat) / 320))
    let j : Int := min (max idx 0) ((instFreq.length : Int) - 1)
    freq_to_byte (instFreq.getD j.toNat 0))

/-- One iteration of the per-line loop: sample the luma window into row
`i`, and the chroma window into Cb row `i/2` on even lines, Cr row `i/2`
on odd lines. -/
def robot36_fill_step (instFreq : List Rat) (fs : Nat) (timings : Robot36Timings)
    (acc : List (List Nat) × List (List Nat) × List (List Nat)) (p : Nat × Nat) :
    List (List Nat) × List (List Nat) × List (List Nat) :=
  let i := p.1
  let sync_start := p.2
  let y0 := timings.sync_s + timings.porch_s
  let c0 := timings.sync_s + timings.porch_s + timings.y_s + timings.sep_s
  let y_start : Int := (sync_start : Int) + round (y0 * (fs : Rat))
  let c_start : Int := (sync_start : Int) + round (c0 * (fs : Rat))
  let yrow := sampleRow instFreq y_start timings.y_s fs
  let crow := sampleRow instFreq c_start timings.c_s fs
  if i % 2 = 0 then (acc.1.set i yrow, acc.2.1.set (i / 2) crow, acc.2.2)
  else (acc.1.set i yrow, acc.2.1, acc.2.2.set (i / 2) crow)

/-- Sync-failure message of `decode_robot36`. -/
def robot36SyncFailMsg (n : Nat) : String :=
  "Could not find a stable Robot36 line sync chain (found " ++ toString n ++
    " lines). Try a different capture, or decode with RX-SSTV."

/-- Initial zeroed planes: 240×320 luma, two 120×320 chroma. -/
def robot36_init : List (List Nat) × List (List Nat) × List (List Nat) :=
  (List.replicate 240 (List.replicate 320 0),
   List.replicate 120 (List.replicate 320 0),
   List.replicate 120 (List.replicate 320 0))

/-- The filled pixel planes: the per-line loop over the first 240 syncs. -/
def robot36_planes (chain : List Nat) (instFreq : List Rat) (fs : Nat)
    (timings : Robot36Timings) :
    List (List Nat) × List (List Nat) × List (List Nat) :=
  (chain.take 240).enum.foldl (robot36_fill_step instFreq fs timings) robot36_init

/-- Embedding of the tail of `decode_robot36` (lines 194–245): fail when
the chain has fewer than 200 lines; otherwise use the first 240 syncs,
fill the 240×320 luma and 120×320 chroma planes, and reassemble RGB rows
(`rgb[2p]` and `rgb[2p+1]` from luma rows 2p, 2p+1 and chroma pair p, i.e.
pair = row/2). -/
def robot36_render (chain : List Nat) (instFreq : List Rat) (fs : Nat)
    (timings : Robot36Timings) :
    Except String (List (List (Nat × Nat × Nat))) :=
  if chain.length < 200 then .error (robot36SyncFailMsg chain.length)
  else
    let filled := robot36_planes chain instFreq fs timings
    .ok ((List.range 240).map (fun row =>
      ycbcr_row (filled.1.getD row []) (filled.2.1.getD (row / 2) [])
        (filled.2.2.getD (row / 2) [])))

theorem sampleRow_length (instFreq : List Rat) (start : Int) (span : Rat)
    (fs : Nat) : (sampleRow instFreq start span fs).length = 320 := by
  rw [sampleRow, List.length_map, List.length_range]

theorem ycbcr_row_length :
    ∀ (a b c : List Nat),
      (ycbcr_row a b c).length = min a.length (min b.length c.length) := by
  intro a
  induction a with
  | nil => intro b c; cases b <;> cases c <;> simp [ycbcr_row]
  | cons y ys ih =>
    intro b c
    cases b with
    | nil => cases c <;> simp [ycbcr_row]
    | cons cb cbs =>
      cases c with
      | nil => simp [ycbcr_row]
      | cons cr crs =>
        simp only [ycbcr_row, List.length_cons, ih cbs crs]
        omega

/-- Shape invariant of the three pixel planes. -/
def goodPlanes (acc : List (List Nat) × List (List Nat) × List (List Nat)) :
    Prop :=
  acc.1.length = 240 ∧ (∀ r ∈ acc.1, r.length = 320) ∧
    acc.2.1.length = 120 ∧ (∀ r ∈ acc.2.1, r.length = 320) ∧
    acc.2.2.length = 120 ∧ (∀ r ∈ acc.2.2, r.length = 320)

theorem fill_step_preserves (instFreq : List Rat) (fs : Nat)
    (timings : Robot36Timings)
    (acc : List (List Nat) × List (List Nat) × List (List Nat)) (p : Nat × Nat)
    (h : goodPlanes acc) :
    goodPlanes (robot36_fill_step instFreq fs timings acc p) := by
  obtain ⟨h1, h2, h3, h4, h5, h6⟩ := h
  simp only [robot36_fill_step, goodPlanes]
  split
  · refine ⟨by simp [h1], ?_, by simp [h3], ?_, h5, h6⟩
    · intro r hr
      rcases List.mem_or_eq_of_mem_set hr with hr2 | rfl
      · exact h2 r hr2
      · exact sampleRow_length _ _ _ _
    · intro r hr
      rcases List.mem_or_eq_of_mem_set hr with hr2 | rfl
      · exact h4 r hr2
      · exact sampleRow_length _ _ _ _
  · refine ⟨by simp [h1], ?_, h3, h4, by simp [h5], ?_⟩
    · intro r hr
      rcases List.mem_or_eq_of_mem_set hr with hr2 | rfl
      · exact h2 r hr2
      · exact sampleRow_length _ _ _ _
    · intro r hr
      rcases List.mem_or_eq_of_mem_set hr with hr2 | rfl
      · exact h6 r hr2
      · exact sampleRow_length _ _ _ _

theorem foldl_fill_preserves (instFreq : List Rat) (fs : Nat)
    (timings : Robot36Timings) :
    ∀ (l : List (Nat × Nat))
      (acc : List (List Nat) × List (List Nat) × List (List Nat)),
      goodPlanes acc →
      goodPlanes (l.foldl (robot36_fill_step instFreq fs timings) acc) := by
  intro l
  induction l with
  | nil => intro acc h; exact h
  | cons p rest ih =>
    intro acc h
    exact ih _ (fill_step_preserves instFreq fs timings acc p h)

theorem robot36_init_good : goodPlanes robot36_init := by
  refine ⟨by simp [robot36_init], ?_, by simp [robot36_init], ?_,
    by simp [robot36_init], ?_⟩ <;>
    · intro r hr
      simp only [robot36_init] at hr
      rw [List.eq_of_mem_replicate hr]
      simp

theorem robot36_planes_good (chain : List Nat) (instFreq : List Rat)
    (fs : Nat) (timings : Robot36Timings) :
    goodPlanes (robot36_planes chain instFreq fs timings) :=
  foldl_fill_preserves instFreq fs timings (chain.take 240).enum robot36_init
    robot36_init_good

/-- Claim C9: the Robot36 render stage raises the descriptive sync-failure
error exactly on chains shorter than 200 lines, and on success the output
image is exactly 240 rows of 320 RGB pixels. -/
theorem robot36_render_shape (chain : List Nat) (instFreq : List Rat)
    (fs : Nat) (timings : Robot36Timings) :
    (chain.length < 200 →
      robot36_render chain instFreq fs timings =
        .error (robot36SyncFailMsg chain.length)) ∧
    (200 ≤ chain.length →
      ∃ img, robot36_render chain instFreq fs timings = .ok img ∧
        img.length = 240 ∧ ∀ row ∈ img, row.length = 320) := by
  constructor
  · intro h
    rw [robot36_render, if_pos h]
  · intro h
    obtain ⟨g1, g2, g3, g4, g5, g6⟩ :=
      robot36_planes_good chain instFreq fs timings
    rw [robot36_render, if_neg (by omega)]
    refine ⟨_, rfl, by simp, ?_⟩
    intro row hrow
    simp only [List.mem_map, List.mem_range] at hrow
    obtain ⟨i, hi, rfl⟩ := hrow
    rw [ycbcr_row_length]
    have hylt : i < (robot36_planes chain instFreq fs timings).1.length := by
      rw [g1]; omega
    have hcblt : i / 2 < (robot36_planes chain instFreq fs timings).2.1.length := by
      rw [g3]; omega
    have hcrlt : i / 2 < (robot36_planes chain instFreq fs timings).2.2.length := by
      rw [g5]; omega
    have hy := g2 _ (getD_mem_of_lt hylt [])
    have hcb := g4 _ (getD_mem_of_lt hcblt [])
    have hcr := g6 _ (getD_mem_of_lt hcrlt [])
    rw [hy, hcb, hcr]
    omega

/-- Witness for claim C9: a 240-line chain renders a 240×320 image, and a
100-line chain fails with the sync message. -/
theorem robot36_render_shape_witness :
    (∃ img, robot36_render (List.replicate 240 0) [] 48000 {} = .ok img ∧
      img.length = 240 ∧ ∀ row ∈ img, row.length = 320) ∧
    robot36_render (List.replicate 100 0) [] 48000 {} =
      .error (robot36SyncFailMsg 100) := by
  constructor
  · exact (robot36_render_shape (List.replicate 240 0) [] 48000 {}).2 (by simp)
  · have h := (robot36_render_shape (List.replicate 100 0) [] 48000 {}).1 (by simp)
    simpa using h

end Echoflare
